import Mathlib

/-!
Shallow embedding of the SECUREBLOCKCHAINSYSTEM voting core:
the Solidity contract src/school-voting/contracts/schoolvoting.sol
(SchoolVoting) and the TypeScript block-chain viewer logic in
src/unnamed/part_004 (calculateHash, mineBlock, createGenesisBlock,
the vote-append loop and isChainValid).

Solidity conventions used by the embedding:
- addresses and uint256 are Nat (votes, counters and timestamps in this
  contract stay far below 2^256, and only comparisons and increments are
  performed, so no wrap-around can occur);
- mappings are modelled extensionally: the address set of voters as a
  list with membership lookup, the nonce mapping as an association list
  defaulting to 0;
- an external function is State -> Except String State; Except.error msg
  is a revert with that require message, and a reverted transaction
  leaves the state unchanged (applyTx below);
- keccak256 equality of two byte strings is modelled as equality of the
  strings themselves (keccak is collision-free for the purpose of the
  contract's duplicate-name checks);
- ecrecover and the signed-message digest are abstracted into an oracle
  (EthOracle): the contract only compares their outputs.
-/

set_option maxRecDepth 100000

/-! ### Generic list helpers (explicit, executable) -/

def modifyIdx {α : Type} : List α → Nat → (α → α) → List α
  | [], _, _ => []
  | x :: r, 0, f => f x :: r
  | x :: r, n + 1, f => x :: modifyIdx r n f

def nthD {α : Type} : List α → Nat → α → α
  | [], _, d => d
  | x :: _, 0, _ => x
  | _ :: r, n + 1, d => nthD r n d

def lastD {α : Type} : List α → α → α
  | [], d => d
  | [x], _ => x
  | _ :: y :: r, d => lastD (y :: r) d

def memB : List Nat → Nat → Bool
  | [], _ => false
  | x :: r, a => if x = a then true else memB r a

/-! ### Contract data model (schoolvoting.sol lines 9-35) -/

structure Candidate where
  name : String
  voteCount : Nat
deriving DecidableEq

inductive SVEvent where
  | ElectionStarted (startTime endTime : Nat)
  | VoteCast (voter : Nat) (candidateIndex : Nat) (timestamp : Nat)
  | ElectionEnded (endedAt : Nat) (endedBy : Nat)
  | CandidateAdded (name : String)
deriving DecidableEq

structure SVState where
  owner : Nat
  candidates : List Candidate
  votedSet : List Nat
  nonces : List (Nat × Nat)
  voterCount : Nat
  maxVoters : Nat
  electionStartTime : Nat
  electionEndTime : Nat
  electionEnded : Bool
  events : List SVEvent
deriving DecidableEq

def hasVotedF (s : SVState) (a : Nat) : Bool := memB s.votedSet a

def ngetN : List (Nat × Nat) → Nat → Nat
  | [], _ => 0
  | (k, v) :: r, a => if k = a then v else ngetN r a

def nset (m : List (Nat × Nat)) (a v : Nat) : List (Nat × Nat) := (a, v) :: m

/-! ### Modifiers (lines 39-49) -/

def onlyDuringElection (s : SVState) (now : Nat) : Except String Unit :=
  if s.electionEnded = true then .error "Election has ended"
  else if now < s.electionStartTime then .error "Election not started"
  else if s.electionEndTime < now then .error "Election time expired"
  else .ok ()

def activeAt (s : SVState) (now : Nat) : Prop :=
  s.electionEnded = false ∧ s.electionStartTime ≤ now ∧ now ≤ s.electionEndTime

instance activeAt_dec (s : SVState) (now : Nat) : Decidable (activeAt s now) := by
  unfold activeAt
  infer_instance

/-! ### Internal vote application (_castVote, lines 143-153) -/

def incVote (c : Candidate) : Candidate := { c with voteCount := c.voteCount + 1 }

def _castVote (s : SVState) (now candidateIndex voter : Nat) : Except String SVState :=
  if hasVotedF s voter = true then .error "Already voted"
  else if s.candidates.length ≤ candidateIndex then .error "Candidate out of range"
  else if s.maxVoters ≤ s.voterCount then .error "Max voters reached"
  else .ok { s with
    votedSet := voter :: s.votedSet,
    voterCount := s.voterCount + 1,
    candidates := modifyIdx s.candidates candidateIndex incVote,
    events := s.events ++ [SVEvent.VoteCast voter candidateIndex now] }

/-! ### Direct voting (vote / voteByName, lines 99-108, 86-94) -/

def vote (s : SVState) (sender now candidateIndex : Nat) : Except String SVState :=
  match onlyDuringElection s now with
  | .error e => .error e
  | .ok _ => _castVote s now candidateIndex sender

def findByName : List Candidate → String → Nat → Nat × Bool
  | [], _, _ => (0, false)
  | c :: r, n, i => if c.name = n then (i, true) else findByName r n (i + 1)

def getCandidateIndexByName (s : SVState) (candidateName : String) : Nat × Bool :=
  findByName s.candidates candidateName 0

def voteByName (s : SVState) (sender now : Nat) (candidateName : String) :
    Except String SVState :=
  match onlyDuringElection s now with
  | .error e => .error e
  | .ok _ =>
    let r := getCandidateIndexByName s candidateName
    if r.2 = false then .error "Candidate not found"
    else _castVote s now r.1 sender

/-! ### Signature voting (voteBySignature lines 116-139, _recover lines 224-243) -/

structure EthOracle where
  keccakDigest : Nat → Nat → Nat → Nat → Nat
  ecrecover : Nat → Nat → Nat → Nat → Nat

def bytesToNat (bs : List Nat) : Nat := bs.foldl (fun a b => a * 256 + b) 0

def _recover (O : EthOracle) (digest : Nat) (sig : List Nat) : Except String Nat :=
  if sig.length ≠ 65 then .error "Invalid sig length"
  else
    let r := bytesToNat (sig.take 32)
    let s := bytesToNat ((sig.drop 32).take 32)
    let v0 := (sig.drop 64).headD 0
    let v := if v0 < 27 then v0 + 27 else v0
    if v = 27 ∨ v = 28 then
      let signer := O.ecrecover digest v r s
      if signer = 0 then .error "Invalid signer" else .ok signer
    else .error "Invalid v"

def voteBySignature (O : EthOracle) (self : Nat) (s : SVState)
    (now candidateIndex voter nonce : Nat) (signature : List Nat) :
    Except String SVState :=
  match onlyDuringElection s now with
  | .error e => .error e
  | .ok _ =>
    if s.candidates.length ≤ candidateIndex then .error "Invalid candidate"
    else if hasVotedF s voter = true then .error "Voter already voted"
    else if s.maxVoters ≤ s.voterCount then .error "Max voters reached"
    else if ngetN s.nonces voter ≠ nonce then .error "Invalid nonce"
    else
      match _recover O (O.keccakDigest self voter candidateIndex nonce) signature with
      | .error e => .error e
      | .ok recovered =>
        if recovered ≠ voter then .error "Invalid signature"
        else
          _castVote { s with nonces := nset s.nonces voter (ngetN s.nonces voter + 1) }
            now candidateIndex voter

/-- Did the signature alone verify?  This is exactly the test the contract
performs after its eligibility requires: _recover succeeds and the
recovered address equals the claimed voter. -/
def sigValidB (O : EthOracle) (self candidateIndex voter nonce : Nat)
    (sig : List Nat) : Bool :=
  match _recover O (O.keccakDigest self voter candidateIndex nonce) sig with
  | .ok a => a == voter
  | .error _ => false

/-! ### Ending the election (endElection, lines 158-163) -/

def endElection (s : SVState) (sender now : Nat) : Except String SVState :=
  if sender ≠ s.owner then .error "Only owner"
  else if s.electionEnded = true then .error "Already ended"
  else if now < s.electionEndTime then .error "Election still running"
  else .ok { s with electionEnded := true,
                    events := s.events ++ [SVEvent.ElectionEnded now sender] }

/-! ### Winner computation (getWinner, lines 173-200) -/

def winnerLoop : List Candidate → Nat → Nat → Nat → Nat → Nat × Nat × Nat
  | [], _, maxVotes, winners, winnerIdx => (maxVotes, winners, winnerIdx)
  | c :: rest, i, maxVotes, winners, winnerIdx =>
    if maxVotes < c.voteCount then winnerLoop rest (i + 1) c.voteCount 1 i
    else if c.voteCount = maxVotes ∧ 0 < c.voteCount then
      winnerLoop rest (i + 1) maxVotes (winners + 1) winnerIdx
    else winnerLoop rest (i + 1) maxVotes winners winnerIdx

def getWinner (s : SVState) (now : Nat) : Except String (String × Nat × Bool) :=
  if s.electionEnded = true ∨ s.electionEndTime < now then
    if s.candidates.length = 0 then .ok ("", 0, false)
    else if (winnerLoop s.candidates 0 0 0 0).1 = 0 then .ok ("", 0, false)
    else .ok ((nthD s.candidates (winnerLoop s.candidates 0 0 0 0).2.2 ⟨"", 0⟩).name,
              (winnerLoop s.candidates 0 0 0 0).1,
              decide (1 < (winnerLoop s.candidates 0 0 0 0).2.1))
  else .error "Election ongoing"

/-! ### Candidate admin (addCandidate, lines 248-256) -/

def dupName (cs : List Candidate) (n : String) : Bool := cs.any (fun c => c.name == n)

def addCandidate (s : SVState) (sender now : Nat) (name : String) :
    Except String SVState :=
  if sender ≠ s.owner then .error "Only owner"
  else if s.electionStartTime ≤ now then .error "Can only add candidates before start"
  else if dupName s.candidates name = true then .error "Duplicate candidate"
  else .ok { s with candidates := s.candidates ++ [⟨name, 0⟩],
                    events := s.events ++ [SVEvent.CandidateAdded name] }

/-! ### Deployment (constructor, lines 56-77) -/

def addAll : List Candidate → List String → Except String (List Candidate)
  | acc, [] => .ok acc
  | acc, n :: rest =>
    if dupName acc n = true then .error "Duplicate candidate name"
    else addAll (acc ++ [⟨n, 0⟩]) rest

def constructor (sender now : Nat) (candidateNames : List String)
    (_maxVoters durationHours : Nat) : Except String SVState :=
  if candidateNames.length < 2 then .error "At least two candidates"
  else if _maxVoters = 0 then .error "maxVoters > 0"
  else if durationHours = 0 then .error "duration > 0"
  else
    match addAll [] candidateNames with
    | .error e => .error e
    | .ok cs => .ok {
        owner := sender, candidates := cs, votedSet := [], nonces := [],
        voterCount := 0, maxVoters := _maxVoters,
        electionStartTime := now, electionEndTime := now + durationHours * 3600,
        electionEnded := false,
        events := (candidateNames.map SVEvent.CandidateAdded) ++
                  [SVEvent.ElectionStarted now (now + durationHours * 3600)] }

/-! ### Transactions, revert semantics and reachability -/

inductive Tx where
  | vote (sender now candidateIndex : Nat)
  | voteByName (sender now : Nat) (name : String)
  | voteBySig (self now candidateIndex voter nonce : Nat) (sig : List Nat)
  | endElection (sender now : Nat)
  | addCandidate (sender now : Nat) (name : String)
deriving DecidableEq

def txTime : Tx → Nat
  | .vote _ now _ => now
  | .voteByName _ now _ => now
  | .voteBySig _ now _ _ _ _ => now
  | .endElection _ now => now
  | .addCandidate _ now _ => now

def isVoteTx : Tx → Bool
  | .vote _ _ _ => true
  | .voteByName _ _ _ => true
  | .voteBySig _ _ _ _ _ _ => true
  | _ => false

def execTx (O : EthOracle) (s : SVState) : Tx → Except String SVState
  | .vote sender now ci => vote s sender now ci
  | .voteByName sender now n => voteByName s sender now n
  | .voteBySig self now ci voter nonce sig =>
      voteBySignature O self s now ci voter nonce sig
  | .endElection sender now => endElection s sender now
  | .addCandidate sender now n => addCandidate s sender now n

def applyTx (O : EthOracle) (s : SVState) (tx : Tx) : SVState :=
  match execTx O s tx with
  | .ok s2 => s2
  | .error _ => s

def run (O : EthOracle) (s : SVState) (txs : List Tx) : SVState :=
  txs.foldl (applyTx O) s

/-- States reachable from a freshly deployed contract, together with the
last observed block timestamp; block timestamps never decrease. -/
inductive Reach (O : EthOracle) : SVState → Nat → Prop where
  | init (sender now : Nat) (names : List String) (mv dh : Nat) (s : SVState)
      (h : constructor sender now names mv dh = .ok s) : Reach O s now
  | step (s : SVState) (t : Nat) (tx : Tx) (h : Reach O s t)
      (hm : t ≤ txTime tx) : Reach O (applyTx O s tx) (txTime tx)

/-! ### Observation helpers -/

def errMsg : Except String SVState → Option String
  | .error e => some e
  | .ok _ => none

def eventsOf : Except String SVState → List SVEvent
  | .ok s => s.events
  | .error _ => []

def sumVotes : List Candidate → Nat
  | [] => 0
  | c :: r => c.voteCount + sumVotes r

def isVoteCastEv : SVEvent → Bool
  | .VoteCast _ _ _ => true
  | _ => false

def countVoteCast : List SVEvent → Nat
  | [] => 0
  | e :: r => (if isVoteCastEv e then 1 else 0) + countVoteCast r

/-! ### Tally specification helpers (pure arithmetic views of the
candidate list, used to state what getWinner returns) -/

def maxVotesOf : List Candidate → Nat
  | [] => 0
  | c :: r => max c.voteCount (maxVotesOf r)

def countMax : List Candidate → Nat → Nat
  | [], _ => 0
  | c :: r, m => (if c.voteCount = m then 1 else 0) + countMax r m

def fIdx : List Candidate → Nat → Nat
  | [], _ => 0
  | c :: r, m => if c.voteCount = m then 0 else fIdx r m + 1

/-! ### Concrete sample states (used by witnesses and counterexamples) -/

/-- An oracle whose ecrecover always answers address 7 (a model in which the
submitted signature is a valid signature by voter 7 on every digest). -/
def O7 : EthOracle where
  keccakDigest := fun _ _ _ _ => 0
  ecrecover := fun _ _ _ _ => 7

/-- The state deployed by constructor 1 0 ["A", "B"] 5 1. -/
def s0 : SVState where
  owner := 1
  candidates := [⟨"A", 0⟩, ⟨"B", 0⟩]
  votedSet := []
  nonces := []
  voterCount := 0
  maxVoters := 5
  electionStartTime := 0
  electionEndTime := 3600
  electionEnded := false
  events := [SVEvent.CandidateAdded "A", SVEvent.CandidateAdded "B",
             SVEvent.ElectionStarted 0 3600]

example : constructor 1 0 ["A", "B"] 5 1 = .ok s0 := rfl

/-- The state deployed by constructor 1 0 ["A", "B"] 1 1 (maxVoters = 1). -/
def sCap0 : SVState where
  owner := 1
  candidates := [⟨"A", 0⟩, ⟨"B", 0⟩]
  votedSet := []
  nonces := []
  voterCount := 0
  maxVoters := 1
  electionStartTime := 0
  electionEndTime := 3600
  electionEnded := false
  events := [SVEvent.CandidateAdded "A", SVEvent.CandidateAdded "B",
             SVEvent.ElectionStarted 0 3600]

example : constructor 1 0 ["A", "B"] 1 1 = .ok sCap0 := rfl

/-- sCap0 after voter 7 votes for candidate 0 at time 5: capacity reached. -/
def sCap1 : SVState := applyTx O7 sCap0 (Tx.vote 7 5 0)

/-- A 65-byte signature blob with v = 27. -/
def sig65 : List Nat := List.replicate 64 0 ++ [27]

/-- s0 after a successful voteBySignature by voter 7 (oracle O7), nonce 0. -/
def s2sig : SVState := applyTx O7 s0 (Tx.voteBySig 0 5 0 7 0 sig65)

example : hasVotedF sCap1 7 = true := rfl
example : sCap1.voterCount = 1 := rfl
example : errMsg (voteBySignature O7 0 s0 5 0 7 0 sig65) = none := rfl
example : ngetN s2sig.nonces 7 = 1 := rfl

/-!
## TypeScript block-chain viewer (src/unnamed/part_004)

Embedding conventions:
- a JS Number holding a small integer is a Nat (all indices, timestamps
  and nonces in the code are small nonnegative integers, far below 2^53,
  so Number arithmetic on them is exact);
- the rolling 32-bit hash is computed over Int with explicit reduction
  into the signed 32-bit range, matching the semantics of the << and &
  operators (ToInt32) applied by the code;
- string.charCodeAt iterates UTF-16 code units, reproduced by utf16Units;
- JSON.stringify of the Vote objects is reproduced literally for objects
  built by the code (insertion-ordered keys voterId, candidate,
  timestamp, standard string escaping).
-/

structure JVote where
  voterId : String
  candidate : String
  timestamp : Nat
deriving DecidableEq

structure JBlock where
  index : Nat
  timestamp : Nat
  votes : List JVote
  previousHash : String
  hash : String
  nonce : Nat
deriving DecidableEq

def defaultJBlock : JBlock where
  index := 0
  timestamp := 0
  votes := []
  previousHash := ""
  hash := ""
  nonce := 0

def hexDigitChar (n : Nat) : Char :=
  if n < 10 then Char.ofNat (48 + n) else Char.ofNat (87 + n)

/-- Decimal rendering of a Nat, digit by digit (JS Number toString for a
nonnegative integer). -/
def decAux : Nat → Nat → List Char
  | 0, _ => []
  | _ + 1, 0 => []
  | fuel + 1, n => decAux fuel (n / 10) ++ [Char.ofNat (48 + n % 10)]

def natDec (n : Nat) : String :=
  if n = 0 then "0" else String.mk (decAux 32 n)

/-- Lowercase hexadecimal rendering of a Nat (JS Number toString 16). -/
def hexAux : Nat → Nat → List Char
  | 0, _ => []
  | _ + 1, 0 => []
  | fuel + 1, n => hexAux fuel (n / 16) ++ [hexDigitChar (n % 16)]

def natHex (n : Nat) : String :=
  if n = 0 then "0" else String.mk (hexAux 32 n)

/-- JS String.prototype.padStart with a single pad character. -/
def padStart (s : String) (len : Nat) (c : Char) : String :=
  String.mk (List.replicate (len - s.length) c) ++ s

/-- UTF-16 code units of one character (what charCodeAt iterates). -/
def utf16Units (c : Char) : List Nat :=
  let n := c.toNat
  if n < 65536 then [n]
  else [55296 + (n - 65536) / 1024, 56320 + (n - 65536) % 1024]

def codeUnits (s : String) : List Nat := (s.data.map utf16Units).flatten

/-- Reduction of an integer into the signed 32-bit range, the effect of
the JS operators << and & on their operands and result. -/
def toInt32 (x : Int) : Int := (x + 2 ^ 31) % 2 ^ 32 - 2 ^ 31

/-- One step of the rolling hash: hash = (hash << 5) - hash + char
followed by hash = hash & hash, on int32 values. -/
def hashStep (h : Int) (c : Nat) : Int := toInt32 (toInt32 (h * 32) - h + (c : Int))

def hashChars (l : List Nat) : Int := l.foldl hashStep 0

/-- JSON.stringify escaping of one character inside a string literal. -/
def escChar (c : Char) : List Char :=
  if c = '"' then ['\\', '"']
  else if c = '\\' then ['\\', '\\']
  else if c = Char.ofNat 10 then ['\\', 'n']
  else if c = Char.ofNat 13 then ['\\', 'r']
  else if c = Char.ofNat 9 then ['\\', 't']
  else if c = Char.ofNat 8 then ['\\', 'b']
  else if c = Char.ofNat 12 then ['\\', 'f']
  else if c.toNat < 32 then
    ['\\', 'u', '0', '0', hexDigitChar (c.toNat / 16), hexDigitChar (c.toNat % 16)]
  else [c]

def jsonString (s : String) : String :=
  "\"" ++ String.mk (s.data.map escChar).flatten ++ "\""

/-- JSON.stringify of one Vote object as created by the code
(insertion-ordered keys voterId, candidate, timestamp). -/
def voteJson (v : JVote) : String :=
  "\x7b\"voterId\":" ++ jsonString v.voterId ++ ",\"candidate\":" ++
    jsonString v.candidate ++ ",\"timestamp\":" ++ natDec v.timestamp ++ "\x7d"

def joinComma : List String → String
  | [] => ""
  | [s] => s
  | s :: rest => s ++ "," ++ joinComma rest

def jsonVotes (vs : List JVote) : String := "[" ++ joinComma (vs.map voteJson) ++ "]"

/-- calculateHash (part_004 lines 49-65).  Note block.index + block.timestamp
is numeric addition (both are Numbers) before string concatenation. -/
def calculateHash (b : JBlock) : String :=
  let data := natDec (b.index + b.timestamp) ++ jsonVotes b.votes ++
              b.previousHash ++ natDec b.nonce
  padStart (natHex (hashChars (codeUnits data)).natAbs) 16 '0'

def strStartsWith (s t : String) : Bool := t.data.isPrefixOf s.data

/-- The do-while of mineBlock: nonce is pre-incremented, the hash recomputed,
and the loop continues while the hash misses the target prefix and fewer
than maxIterations (10000) iterations have run.  The second argument is the
number of iterations still allowed. -/
def mineLoop (b : JBlock) (target : String) : Nat → Nat → Nat × String
  | nonce, 0 =>
    (nonce + 1, calculateHash { b with nonce := nonce + 1 })
  | nonce, 1 =>
    (nonce + 1, calculateHash { b with nonce := nonce + 1 })
  | nonce, r + 2 =>
    let n := nonce + 1
    let h := calculateHash { b with nonce := n }
    if strStartsWith h target then (n, h) else mineLoop b target n (r + 1)

/-- mineBlock (part_004 lines 334-356), difficulty passed explicitly
(the code always uses its default, 2). -/
def mineBlock (b : JBlock) (difficulty : Nat) : JBlock :=
  { b with nonce := (mineLoop b (String.mk (List.replicate difficulty '0')) 0 10000).1,
           hash := (mineLoop b (String.mk (List.replicate difficulty '0')) 0 10000).2 }

/-- createGenesisBlock (part_004 lines 319-330), with the creation time
passed in for Date.now(): the block is built with hash "", then its hash
field is set to calculateHash of the block (which ignores the hash field). -/
def genesisBlock (ts : Nat) : JBlock :=
  { index := 0, timestamp := ts, votes := [], previousHash := "0",
    hash := calculateHash { index := 0, timestamp := ts, votes := [],
                            previousHash := "0", hash := "", nonce := 0 },
    nonce := 0 }

/-- One iteration of the reconstruction loop (part_004 lines 814-833):
append a single-vote block linked to the current last block and mine it. -/
def appendVote (chain : List JBlock) (v : JVote) : List JBlock :=
  chain ++ [mineBlock { index := chain.length, timestamp := v.timestamp,
                        votes := [v], previousHash := (lastD chain defaultJBlock).hash,
                        hash := "", nonce := 0 } 2]

/-- A chain built solely by successful vote appends from a genesis block. -/
def buildChain (ts : Nat) (vs : List JVote) : List JBlock :=
  vs.foldl appendVote [genesisBlock ts]

/-- The body of the isChainValid loop (part_004 lines 847-861), checking
each block from index 1 onward against its recomputed hash and its
predecessor's stored hash. -/
def chainCheck : JBlock → List JBlock → Bool
  | _, [] => true
  | prev, cur :: rest =>
    if cur.hash ≠ calculateHash cur then false
    else if cur.previousHash ≠ prev.hash then false
    else chainCheck cur rest

def isChainValid (c : List JBlock) : Bool :=
  match c with
  | [] => true
  | [_] => true
  | b :: rest => chainCheck b rest

/-- Out-of-band mutation of the stored hash of the block at position i. -/
def setBlockHash (c : List JBlock) (i : Nat) (h : String) : List JBlock :=
  modifyIdx c i (fun b => { b with hash := h })

/-- Out-of-band mutation of the vote contents of the block at position i:
every vote's candidate field is rewritten. -/
def tamperCandidate (c : List JBlock) (i : Nat) (newName : String) : List JBlock :=
  modifyIdx c i (fun b =>
    { b with votes := b.votes.map (fun v => { v with candidate := newName }) })

def vAa : JVote where
  voterId := "ANONYMOUS"
  candidate := "Aa"
  timestamp := 5

example : isChainValid (buildChain 0 [vAa]) = true := by decide
example : (buildChain 0 [vAa]).length = 2 := by decide
example : isChainValid (tamperCandidate (buildChain 0 [vAa]) 1 "BB") = true := by decide
example : isChainValid (setBlockHash (buildChain 0 [vAa]) 1 "x") = false := by decide
example : tamperCandidate (buildChain 0 [vAa]) 1 "BB" ≠ buildChain 0 [vAa] := by decide

/-!
## Helper lemmas about the contract embedding
-/

lemma modifyIdx_length {α : Type} (f : α → α) :
    ∀ (l : List α) (i : Nat), (modifyIdx l i f).length = l.length := by
  intro l
  induction l with
  | nil => intro i; cases i <;> rfl
  | cons x r ih => intro i; cases i with
    | zero => rfl
    | succ n => simpa [modifyIdx] using ih n

lemma nthD_modifyIdx {α : Type} (f : α → α) (d : α) :
    ∀ (l : List α) (i : Nat), i < l.length →
      nthD (modifyIdx l i f) i d = f (nthD l i d) := by
  intro l
  induction l with
  | nil => intro i h; simp at h
  | cons x r ih => intro i h; cases i with
    | zero => rfl
    | succ n => simpa [modifyIdx, nthD] using ih n (by simpa using h)

lemma nthD_mem {α : Type} (d : α) :
    ∀ (l : List α) (i : Nat), i < l.length → nthD l i d ∈ l := by
  intro l
  induction l with
  | nil => intro i h; simp at h
  | cons x r ih => intro i h; cases i with
    | zero => exact List.mem_cons_self x r
    | succ n => exact List.mem_cons_of_mem x (ih n (by simpa using h))

lemma sumVotes_append : ∀ (a b : List Candidate),
    sumVotes (a ++ b) = sumVotes a + sumVotes b := by
  intro a b
  induction a with
  | nil => simp [sumVotes]
  | cons c r ih => simp [sumVotes, ih]; omega

lemma sumVotes_modifyIdx : ∀ (cs : List Candidate) (i : Nat), i < cs.length →
    sumVotes (modifyIdx cs i incVote) = sumVotes cs + 1 := by
  intro cs
  induction cs with
  | nil => intro i h; simp at h
  | cons c r ih => intro i h; cases i with
    | zero => simp [modifyIdx, sumVotes, incVote]; omega
    | succ n =>
      have := ih n (by simpa using h)
      simp [modifyIdx, sumVotes, this]; omega

lemma mapName_modifyIdx : ∀ (cs : List Candidate) (i : Nat),
    (modifyIdx cs i incVote).map Candidate.name = cs.map Candidate.name := by
  intro cs
  induction cs with
  | nil => intro i; cases i <;> rfl
  | cons c r ih => intro i; cases i with
    | zero => simp [modifyIdx, incVote]
    | succ n => simp [modifyIdx, ih n]

lemma countVoteCast_append : ∀ (a b : List SVEvent),
    countVoteCast (a ++ b) = countVoteCast a + countVoteCast b := by
  intro a b
  induction a with
  | nil => simp [countVoteCast]
  | cons e r ih => simp [countVoteCast, ih]; omega

lemma onlyDuring_ok_iff (s : SVState) (now : Nat) :
    onlyDuringElection s now = .ok () ↔ activeAt s now := by
  unfold onlyDuringElection activeAt
  split_ifs with h1 h2 h3
  · simp [h1]
  · simp [h1]; omega
  · simp; omega
  · simp only [Bool.not_eq_true] at h1
    simp [h1]; omega

lemma castVote_ok {s : SVState} {now ci voter : Nat} {s2 : SVState}
    (h : _castVote s now ci voter = .ok s2) :
    hasVotedF s voter = false ∧ ci < s.candidates.length ∧
    s.voterCount < s.maxVoters ∧
    s2 = { s with votedSet := voter :: s.votedSet,
                  voterCount := s.voterCount + 1,
                  candidates := modifyIdx s.candidates ci incVote,
                  events := s.events ++ [SVEvent.VoteCast voter ci now] } := by
  unfold _castVote at h
  split_ifs at h with h1 h2 h3 <;> try contradiction
  refine ⟨by simpa using h1, by omega, by omega, ?_⟩
  injection h with h4
  exact h4.symm

lemma castVote_eq_ok {s : SVState} {now ci voter : Nat}
    (h1 : hasVotedF s voter = false) (h2 : ci < s.candidates.length)
    (h3 : s.voterCount < s.maxVoters) :
    _castVote s now ci voter =
      .ok { s with votedSet := voter :: s.votedSet,
                   voterCount := s.voterCount + 1,
                   candidates := modifyIdx s.candidates ci incVote,
                   events := s.events ++ [SVEvent.VoteCast voter ci now] } := by
  unfold _castVote
  rw [if_neg (by simp [h1]), if_neg (by omega), if_neg (by omega)]

lemma vote_ok {s : SVState} {sender now ci : Nat} {s2 : SVState}
    (h : vote s sender now ci = .ok s2) :
    activeAt s now ∧ _castVote s now ci sender = .ok s2 := by
  unfold vote at h
  cases he : onlyDuringElection s now with
  | error e => rw [he] at h; contradiction
  | ok u =>
    rw [he] at h
    cases u
    exact ⟨(onlyDuring_ok_iff s now).1 he, h⟩

lemma voteByName_ok {s : SVState} {sender now : Nat} {n : String} {s2 : SVState}
    (h : voteByName s sender now n = .ok s2) :
    activeAt s now ∧
    _castVote s now (getCandidateIndexByName s n).1 sender = .ok s2 := by
  unfold voteByName at h
  cases he : onlyDuringElection s now with
  | error e => rw [he] at h; contradiction
  | ok u =>
    rw [he] at h
    cases u
    dsimp only at h
    split_ifs at h with hf <;> try contradiction
    exact ⟨(onlyDuring_ok_iff s now).1 he, h⟩

lemma voteBySig_ok {O : EthOracle} {self : Nat} {s : SVState}
    {now ci voter nonce : Nat} {sig : List Nat} {s2 : SVState}
    (h : voteBySignature O self s now ci voter nonce sig = .ok s2) :
    activeAt s now ∧ ci < s.candidates.length ∧ hasVotedF s voter = false ∧
    s.voterCount < s.maxVoters ∧ ngetN s.nonces voter = nonce ∧
    sigValidB O self ci voter nonce sig = true ∧
    _castVote { s with nonces := nset s.nonces voter (ngetN s.nonces voter + 1) }
      now ci voter = .ok s2 := by
  unfold voteBySignature at h
  cases he : onlyDuringElection s now with
  | error e => rw [he] at h; contradiction
  | ok u =>
    rw [he] at h
    cases u
    dsimp only at h
    split_ifs at h with h1 h2 h3 h4 <;> try contradiction
    cases hr : _recover O (O.keccakDigest self voter ci nonce) sig with
    | error e => rw [hr] at h; contradiction
    | ok recovered =>
      rw [hr] at h
      dsimp only at h
      split_ifs at h with h5 <;> try contradiction
      simp only [Decidable.not_not] at h5
      refine ⟨(onlyDuring_ok_iff s now).1 he, by omega, by simpa using h2,
              by omega, by omega, ?_, h⟩
      unfold sigValidB
      rw [hr, h5]
      simp

lemma endElection_ok {s : SVState} {sender now : Nat} {s2 : SVState}
    (h : endElection s sender now = .ok s2) :
    sender = s.owner ∧ s.electionEnded = false ∧ s.electionEndTime ≤ now ∧
    s2 = { s with electionEnded := true,
                  events := s.events ++ [SVEvent.ElectionEnded now sender] } := by
  unfold endElection at h
  split_ifs at h with h1 h2 h3 <;> try contradiction
  refine ⟨by simpa using h1, by simpa using h2, by omega, ?_⟩
  injection h with h4
  exact h4.symm

lemma addCandidate_ok {s : SVState} {sender now : Nat} {n : String} {s2 : SVState}
    (h : addCandidate s sender now n = .ok s2) :
    sender = s.owner ∧ now < s.electionStartTime ∧
    s2 = { s with candidates := s.candidates ++ [⟨n, 0⟩],
                  events := s.events ++ [SVEvent.CandidateAdded n] } := by
  unfold addCandidate at h
  split_ifs at h with h1 h2 h3 <;> try contradiction
  refine ⟨by simpa using h1, by omega, ?_⟩
  injection h with h4
  exact h4.symm

lemma addAll_ok_shape : ∀ (ns : List String) (acc cs : List Candidate),
    addAll acc ns = .ok cs → cs = acc ++ ns.map (fun n => Candidate.mk n 0) := by
  intro ns
  induction ns with
  | nil =>
    intro acc cs h
    unfold addAll at h
    injection h with h
    simp [h.symm]
  | cons n rest ih =>
    intro acc cs h
    unfold addAll at h
    split_ifs at h with hd <;> try contradiction
    have hrec := ih (acc ++ [⟨n, 0⟩]) cs h
    rw [List.append_assoc] at hrec
    simpa using hrec

lemma sumVotes_map_zero : ∀ ns : List String,
    sumVotes (ns.map (fun n => Candidate.mk n 0)) = 0 := by
  intro ns
  induction ns with
  | nil => rfl
  | cons n r ih => simpa [sumVotes] using ih

lemma countVoteCast_init : ∀ (ns : List String) (a b : Nat),
    countVoteCast ((ns.map SVEvent.CandidateAdded) ++ [SVEvent.ElectionStarted a b]) = 0 := by
  intro ns a b
  induction ns with
  | nil => rfl
  | cons n r ih => simpa [countVoteCast, isVoteCastEv] using ih

lemma constructor_ok {sender now : Nat} {names : List String} {mv dh : Nat}
    {s : SVState} (h : constructor sender now names mv dh = .ok s) :
    2 ≤ names.length ∧ 0 < mv ∧ 0 < dh ∧
    s = { owner := sender, candidates := names.map (fun n => Candidate.mk n 0),
          votedSet := [], nonces := [], voterCount := 0, maxVoters := mv,
          electionStartTime := now, electionEndTime := now + dh * 3600,
          electionEnded := false,
          events := (names.map SVEvent.CandidateAdded) ++
                    [SVEvent.ElectionStarted now (now + dh * 3600)] } := by
  unfold constructor at h
  split_ifs at h with h1 h2 h3 <;> try contradiction
  cases ha : addAll [] names with
  | error e => rw [ha] at h; contradiction
  | ok cs =>
    rw [ha] at h
    dsimp only at h
    injection h with h4
    have := addAll_ok_shape names [] cs ha
    refine ⟨by omega, by omega, by omega, ?_⟩
    rw [← h4, this]
    simp

/-- Master invariant of reachable states: the deployment time bounds, the
conservation equalities between tally, voter count and emitted VoteCast
events, and the capacity bound. -/
lemma reach_inv {O : EthOracle} {s : SVState} {t : Nat} (h : Reach O s t) :
    s.electionStartTime ≤ t ∧
    (s.electionEnded = true → s.electionEndTime ≤ t) ∧
    sumVotes s.candidates = s.voterCount ∧
    s.voterCount = countVoteCast s.events ∧
    s.voterCount ≤ s.maxVoters := by
  induction h with
  | init sender now names mv dh s h =>
    obtain ⟨-, hmv, -, hs⟩ := constructor_ok h
    subst hs
    refine ⟨le_refl _, by simp, ?_, ?_, Nat.zero_le _⟩
    · exact sumVotes_map_zero names
    · exact (countVoteCast_init names now _).symm
  | step s t tx h hm ih =>
    obtain ⟨ih1, ih2, ih3, ih4, ih5⟩ := ih
    cases hex : execTx O s tx with
    | error e =>
      have happ : applyTx O s tx = s := by unfold applyTx; rw [hex]
      rw [happ]
      exact ⟨le_trans ih1 hm, fun he => le_trans (ih2 he) hm, ih3, ih4, ih5⟩
    | ok s2 =>
      have happ : applyTx O s tx = s2 := by unfold applyTx; rw [hex]
      rw [happ]
      cases tx with
      | vote sender now ci =>
        obtain ⟨hact, hcv⟩ := vote_ok hex
        obtain ⟨hv, hci, hcm, hs2⟩ := castVote_ok hcv
        subst hs2
        refine ⟨le_trans ih1 hm, ?_, ?_, ?_,
          show s.voterCount + 1 ≤ s.maxVoters by omega⟩
        · intro habs; simp [hact.1] at habs
        · show sumVotes (modifyIdx s.candidates ci incVote) = s.voterCount + 1
          rw [sumVotes_modifyIdx s.candidates ci hci, ih3]
        · show s.voterCount + 1 =
            countVoteCast (s.events ++ [SVEvent.VoteCast sender ci now])
          rw [countVoteCast_append, ← ih4]
          simp [countVoteCast, isVoteCastEv]
      | voteByName sender now n =>
        obtain ⟨hact, hcv⟩ := voteByName_ok hex
        obtain ⟨hv, hci, hcm, hs2⟩ := castVote_ok hcv
        subst hs2
        refine ⟨le_trans ih1 hm, ?_, ?_, ?_,
          show s.voterCount + 1 ≤ s.maxVoters by omega⟩
        · intro habs; simp [hact.1] at habs
        · show sumVotes (modifyIdx s.candidates (getCandidateIndexByName s n).1 incVote) =
            s.voterCount + 1
          rw [sumVotes_modifyIdx s.candidates _ hci, ih3]
        · show s.voterCount + 1 = countVoteCast
            (s.events ++ [SVEvent.VoteCast sender (getCandidateIndexByName s n).1 now])
          rw [countVoteCast_append, ← ih4]
          simp [countVoteCast, isVoteCastEv]
      | voteBySig self now ci voter nonce sig =>
        obtain ⟨hact, hci, hv, hcm, hn, hsv, hcv⟩ := voteBySig_ok hex
        obtain ⟨hv1, hci1, hcm1, hs2⟩ := castVote_ok hcv
        subst hs2
        refine ⟨le_trans ih1 hm, ?_, ?_, ?_,
          show s.voterCount + 1 ≤ s.maxVoters by omega⟩
        · intro habs; simp [hact.1] at habs
        · show sumVotes (modifyIdx s.candidates ci incVote) = s.voterCount + 1
          rw [sumVotes_modifyIdx s.candidates ci hci, ih3]
        · show s.voterCount + 1 =
            countVoteCast (s.events ++ [SVEvent.VoteCast voter ci now])
          rw [countVoteCast_append, ← ih4]
          simp [countVoteCast, isVoteCastEv]
      | endElection sender now =>
        obtain ⟨ho, he2, ht, hs2⟩ := endElection_ok hex
        subst hs2
        refine ⟨le_trans ih1 hm, fun _ => ht, ih3, ?_, ih5⟩
        show s.voterCount = countVoteCast (s.events ++ [SVEvent.ElectionEnded now sender])
        rw [countVoteCast_append, ← ih4]
        simp [countVoteCast, isVoteCastEv]
      | addCandidate sender now n =>
        obtain ⟨ho, ht, hs2⟩ := addCandidate_ok hex
        subst hs2
        refine ⟨le_trans ih1 hm, fun habs => le_trans (ih2 habs) hm, ?_, ?_, ih5⟩
        · show sumVotes (s.candidates ++ [⟨n, 0⟩]) = s.voterCount
          rw [sumVotes_append]
          simp [sumVotes]
          exact ih3
        · show s.voterCount = countVoteCast (s.events ++ [SVEvent.CandidateAdded n])
          rw [countVoteCast_append, ← ih4]
          simp [countVoteCast, isVoteCastEv]

/-- The explicit end flag is one-way: no transaction can unset it. -/
lemma applyTx_ended_mono (O : EthOracle) (s : SVState) (tx : Tx)
    (h : s.electionEnded = true) : (applyTx O s tx).electionEnded = true := by
  cases hex : execTx O s tx with
  | error e =>
    have happ : applyTx O s tx = s := by unfold applyTx; rw [hex]
    rw [happ]; exact h
  | ok s2 =>
    have happ : applyTx O s tx = s2 := by unfold applyTx; rw [hex]
    rw [happ]
    cases tx with
    | vote sender now ci =>
      obtain ⟨hact, _⟩ := vote_ok hex
      rw [hact.1] at h; cases h
    | voteByName sender now n =>
      obtain ⟨hact, _⟩ := voteByName_ok hex
      rw [hact.1] at h; cases h
    | voteBySig self now ci voter nonce sig =>
      obtain ⟨hact, _⟩ := voteBySig_ok hex
      rw [hact.1] at h; cases h
    | endElection sender now =>
      obtain ⟨-, -, -, hs2⟩ := endElection_ok hex
      subst hs2; rfl
    | addCandidate sender now n =>
      obtain ⟨-, -, hs2⟩ := addCandidate_ok hex
      subst hs2; exact h

lemma run_ended_mono (O : EthOracle) (s : SVState) (txs : List Tx)
    (h : s.electionEnded = true) : (run O s txs).electionEnded = true := by
  induction txs generalizing s with
  | nil => exact h
  | cons tx rest ih =>
    exact ih (applyTx O s tx) (applyTx_ended_mono O s tx h)

/-- Every vote entry point preserves the name sequence of the candidate
list, and non-vote transactions either leave candidates untouched
(endElection) or only append (addCandidate, which from a reachable state
always reverts; see the C10 theorem). -/
lemma applyTx_names_of_vote (O : EthOracle) (s : SVState) (tx : Tx)
    (hv : isVoteTx tx = true ∨ (∃ a b, tx = Tx.endElection a b)) :
    (applyTx O s tx).candidates.map Candidate.name =
      s.candidates.map Candidate.name := by
  cases hex : execTx O s tx with
  | error e =>
    have happ : applyTx O s tx = s := by unfold applyTx; rw [hex]
    rw [happ]
  | ok s2 =>
    have happ : applyTx O s tx = s2 := by unfold applyTx; rw [hex]
    rw [happ]
    cases tx with
    | vote sender now ci =>
      obtain ⟨-, hcv⟩ := vote_ok hex
      obtain ⟨-, -, -, hs2⟩ := castVote_ok hcv
      subst hs2
      exact mapName_modifyIdx s.candidates ci
    | voteByName sender now n =>
      obtain ⟨-, hcv⟩ := voteByName_ok hex
      obtain ⟨-, -, -, hs2⟩ := castVote_ok hcv
      subst hs2
      exact mapName_modifyIdx s.candidates _
    | voteBySig self now ci voter nonce sig =>
      obtain ⟨-, -, -, -, -, -, hcv⟩ := voteBySig_ok hex
      obtain ⟨-, -, -, hs2⟩ := castVote_ok hcv
      subst hs2
      exact mapName_modifyIdx s.candidates ci
    | endElection sender now =>
      obtain ⟨-, -, -, hs2⟩ := endElection_ok hex
      subst hs2
      rfl
    | addCandidate sender now n =>
      rcases hv with hv | ⟨a, b, hv⟩
      · simp [isVoteTx] at hv
      · cases hv

/-- Closed form of the getWinner scan: starting from a running maximum mv,
winners count w and winner index wi with i candidates already consumed, the
loop either switches to the maximum of the remaining list (when it beats
mv), counting its holders and locating its first index, or keeps the
accumulator, adding the holders of mv (only when mv is positive). -/
lemma winnerLoop_spec : ∀ (cs : List Candidate) (i mv w wi : Nat),
    winnerLoop cs i mv w wi =
      if mv < maxVotesOf cs then
        (maxVotesOf cs, countMax cs (maxVotesOf cs), i + fIdx cs (maxVotesOf cs))
      else (mv, if 0 < mv then w + countMax cs mv else w, wi) := by
  intro cs
  induction cs with
  | nil =>
    intro i mv w wi
    simp [winnerLoop, maxVotesOf, countMax]
  | cons c rest ih =>
    intro i mv w wi
    simp only [winnerLoop]
    by_cases h1 : mv < c.voteCount
    · rw [if_pos h1, ih]
      by_cases h2 : c.voteCount < maxVotesOf rest
      · rw [if_pos h2]
        have hM : maxVotesOf (c :: rest) = maxVotesOf rest := by
          simp only [maxVotesOf]
          exact Nat.max_eq_right (Nat.le_of_lt h2)
        rw [hM, if_pos (show mv < maxVotesOf rest by omega)]
        have hcne : ¬ (c.voteCount = maxVotesOf rest) := by omega
        simp [countMax, fIdx, hcne, Prod.mk.injEq]
        omega
      · rw [if_neg h2]
        have hM : maxVotesOf (c :: rest) = c.voteCount := by
          simp only [maxVotesOf]
          exact Nat.max_eq_left (Nat.not_lt.mp h2)
        rw [hM, if_pos h1]
        have h0 : 0 < c.voteCount := by omega
        simp [countMax, fIdx, h0, Prod.mk.injEq]
    · rw [if_neg h1]
      by_cases h4 : c.voteCount = mv ∧ 0 < c.voteCount
      · rw [if_pos h4, ih]
        by_cases h3 : mv < maxVotesOf rest
        · rw [if_pos h3]
          have hM : maxVotesOf (c :: rest) = maxVotesOf rest := by
            simp only [maxVotesOf]
            exact Nat.max_eq_right (by omega)
          rw [hM, if_pos h3]
          have hcne : ¬ (c.voteCount = maxVotesOf rest) := by omega
          simp [countMax, fIdx, hcne, Prod.mk.injEq]
          omega
        · rw [if_neg h3]
          have hM : maxVotesOf (c :: rest) = mv := by
            simp only [maxVotesOf]
            rw [h4.1]
            exact Nat.max_eq_left (by omega)
          rw [hM, if_neg (lt_irrefl mv)]
          have h0 : 0 < mv := by omega
          simp [countMax, h4.1, h0, Prod.mk.injEq]
          omega
      · rw [if_neg h4, ih]
        have hvle : c.voteCount ≤ mv := Nat.not_lt.mp h1
        by_cases h3 : mv < maxVotesOf rest
        · rw [if_pos h3]
          have hM : maxVotesOf (c :: rest) = maxVotesOf rest := by
            simp only [maxVotesOf]
            exact Nat.max_eq_right (by omega)
          rw [hM, if_pos h3]
          have hcne : ¬ (c.voteCount = maxVotesOf rest) := by omega
          simp [countMax, fIdx, hcne, Prod.mk.injEq]
          omega
        · rw [if_neg h3]
          have hM2 : ¬ (mv < maxVotesOf (c :: rest)) := by
            simp only [maxVotesOf]
            exact Nat.not_lt.mpr (Nat.max_le.mpr ⟨by omega, by omega⟩)
          rw [if_neg hM2]
          by_cases h0 : 0 < mv
          · have hvne : ¬ (c.voteCount = mv) := by
              intro he
              exact h4 ⟨he, by omega⟩
            simp [countMax, hvne, h0, Prod.mk.injEq]
          · simp [if_neg h0]

/-!
## Helper lemmas about the block-chain embedding
-/

lemma calculateHash_hash_irrel (b : JBlock) (x : String) :
    calculateHash { b with hash := x } = calculateHash b := by
  cases b
  rfl

lemma mineLoop_snd (b : JBlock) (target : String) :
    ∀ (rem nonce : Nat), (mineLoop b target nonce rem).2 =
      calculateHash { b with nonce := (mineLoop b target nonce rem).1 } := by
  intro rem
  induction rem using Nat.strong_induction_on with
  | _ rem ih =>
    intro nonce
    rcases rem with _ | _ | r
    · rfl
    · rfl
    · simp only [mineLoop]
      by_cases hp : strStartsWith (calculateHash { b with nonce := nonce + 1 }) target
      · simp [hp]
      · simp only [hp, if_false, Bool.false_eq_true]
        exact ih (r + 1) (by omega) (nonce + 1)

lemma mineBlock_hash (b : JBlock) (d : Nat) :
    (mineBlock b d).hash = calculateHash (mineBlock b d) := by
  cases b
  show (mineLoop _ _ 0 10000).2 = _
  rw [mineLoop_snd]
  rfl

lemma lastD_cons {α : Type} : ∀ (r : List α) (x d : α), lastD (x :: r) d = lastD r x := by
  intro r
  induction r with
  | nil => intro x d; rfl
  | cons y r2 ih =>
    intro x d
    show lastD (y :: r2) d = lastD (y :: r2) x
    rw [ih y d, ih y x]

lemma chainCheck_snoc_of : ∀ (rest : List JBlock) (g nb : JBlock),
    chainCheck g rest = true → nb.hash = calculateHash nb →
    nb.previousHash = (lastD rest g).hash →
    chainCheck g (rest ++ [nb]) = true := by
  intro rest
  induction rest with
  | nil =>
    intro g nb h1 h2 h3
    show chainCheck g [nb] = true
    unfold chainCheck
    rw [if_neg (by simp [h2]), if_neg (by simp [h3, lastD])]
    rfl
  | cons x r ihr =>
    intro g nb h1 h2 h3
    show chainCheck g (x :: (r ++ [nb])) = true
    unfold chainCheck at h1 ⊢
    by_cases c1 : x.hash ≠ calculateHash x
    · rw [if_pos c1] at h1; exact absurd h1 (by simp)
    · rw [if_neg c1] at h1 ⊢
      by_cases c2 : x.previousHash ≠ g.hash
      · rw [if_pos c2] at h1; exact absurd h1 (by simp)
      · rw [if_neg c2] at h1 ⊢
        refine ihr x nb h1 h2 ?_
        rw [h3, lastD_cons]

/-- A chain is well built when it is nonempty, every block from index 1 on
passes both stored-hash checks, and every block (genesis included) stores
the hash recomputed from its own contents. -/
def GoodChain : List JBlock → Prop
  | [] => False
  | g :: rest => chainCheck g rest = true ∧ ∀ b ∈ g :: rest, b.hash = calculateHash b

lemma goodChain_all : ∀ (c : List JBlock), GoodChain c → ∀ b ∈ c, b.hash = calculateHash b := by
  intro c h
  cases c with
  | nil => exact (show False from h).elim
  | cons g rest => exact h.2

lemma genesis_good (ts : Nat) : GoodChain [genesisBlock ts] := by
  refine ⟨rfl, ?_⟩
  intro b hb
  rw [List.mem_singleton] at hb
  subst hb
  rfl

lemma appendVote_good : ∀ (c : List JBlock), GoodChain c → ∀ (v : JVote),
    GoodChain (appendVote c v) := by
  intro c h v
  cases c with
  | nil => exact (show False from h).elim
  | cons g rest =>
    obtain ⟨hchk, hall⟩ := h
    show GoodChain (g :: (rest ++ [mineBlock _ 2]))
    constructor
    · refine chainCheck_snoc_of rest g _ hchk (mineBlock_hash _ 2) ?_
      show (lastD (g :: rest) defaultJBlock).hash = (lastD rest g).hash
      rw [lastD_cons]
    · intro b hb
      rcases List.mem_cons.mp hb with hb | hb
      · exact hall b (hb ▸ List.mem_cons_self g rest)
      · rcases List.mem_append.mp hb with hb | hb
        · exact hall b (List.mem_cons_of_mem g hb)
        · rw [List.mem_singleton] at hb
          subst hb
          exact mineBlock_hash _ 2

lemma foldl_appendVote_good : ∀ (vs : List JVote) (c : List JBlock),
    GoodChain c → GoodChain (vs.foldl appendVote c) := by
  intro vs
  induction vs with
  | nil => intro c h; exact h
  | cons v rest ih => intro c h; exact ih (appendVote c v) (appendVote_good c h v)

lemma buildChain_good (ts : Nat) (vs : List JVote) : GoodChain (buildChain ts vs) :=
  foldl_appendVote_good vs [genesisBlock ts] (genesis_good ts)

lemma goodChain_valid : ∀ (c : List JBlock), GoodChain c → isChainValid c = true := by
  intro c h
  cases c with
  | nil => rfl
  | cons g rest =>
    cases rest with
    | nil => rfl
    | cons x r => exact h.1

lemma chainCheck_nth : ∀ (rest : List JBlock) (prev : JBlock),
    chainCheck prev rest = true → ∀ (i : Nat), i < rest.length →
      (nthD rest i defaultJBlock).hash = calculateHash (nthD rest i defaultJBlock) := by
  intro rest
  induction rest with
  | nil => intro prev h i hi; simp at hi
  | cons x r ih =>
    intro prev h i hi
    unfold chainCheck at h
    by_cases c1 : x.hash ≠ calculateHash x
    · rw [if_pos c1] at h; exact absurd h (by simp)
    · rw [if_neg c1] at h
      by_cases c2 : x.previousHash ≠ prev.hash
      · rw [if_pos c2] at h; exact absurd h (by simp)
      · rw [if_neg c2] at h
        cases i with
        | zero => exact Decidable.not_not.mp c1
        | succ j => exact ih x h j (by simpa using hi)

lemma isChainValid_nth : ∀ (c : List JBlock), isChainValid c = true →
    ∀ (i : Nat), 1 ≤ i → i < c.length →
      (nthD c i defaultJBlock).hash = calculateHash (nthD c i defaultJBlock) := by
  intro c hv i h1 h2
  cases c with
  | nil => simp at h2
  | cons g rest =>
    cases rest with
    | nil => simp at h2; omega
    | cons x r =>
      have hcc : chainCheck g (x :: r) = true := hv
      cases i with
      | zero => omega
      | succ j =>
        show (nthD (x :: r) j defaultJBlock).hash = _
        exact chainCheck_nth (x :: r) g hcc j (by simpa using h2)

/-!
## Error-path helper lemmas
-/

lemma onlyDuring_err1 {s : SVState} {now : Nat} (h : s.electionEnded = true) :
    onlyDuringElection s now = .error "Election has ended" := by
  unfold onlyDuringElection; rw [if_pos h]

lemma onlyDuring_err2 {s : SVState} {now : Nat} (h1 : s.electionEnded = false)
    (h2 : now < s.electionStartTime) :
    onlyDuringElection s now = .error "Election not started" := by
  unfold onlyDuringElection; rw [if_neg (by simp [h1]), if_pos h2]

lemma onlyDuring_err3 {s : SVState} {now : Nat} (h1 : s.electionEnded = false)
    (h2 : s.electionStartTime ≤ now) (h3 : s.electionEndTime < now) :
    onlyDuringElection s now = .error "Election time expired" := by
  unfold onlyDuringElection; rw [if_neg (by simp [h1]), if_neg (by omega), if_pos h3]

lemma vote_guard_err {s : SVState} {sender now ci : Nat} {e : String}
    (h : onlyDuringElection s now = .error e) : vote s sender now ci = .error e := by
  unfold vote; rw [h]

lemma vote_guard_ok {s : SVState} {sender now ci : Nat} (h : activeAt s now) :
    vote s sender now ci = _castVote s now ci sender := by
  unfold vote; rw [(onlyDuring_ok_iff s now).mpr h]

lemma castVote_err1 {s : SVState} {now ci voter : Nat} (hv : hasVotedF s voter = true) :
    _castVote s now ci voter = .error "Already voted" := by
  unfold _castVote; rw [if_pos hv]

lemma castVote_err2 {s : SVState} {now ci voter : Nat} (hv : hasVotedF s voter = false)
    (hci : s.candidates.length ≤ ci) :
    _castVote s now ci voter = .error "Candidate out of range" := by
  unfold _castVote; rw [if_neg (by simp [hv]), if_pos hci]

lemma castVote_err3 {s : SVState} {now ci voter : Nat} (hv : hasVotedF s voter = false)
    (hci : ci < s.candidates.length) (hcap : s.maxVoters ≤ s.voterCount) :
    _castVote s now ci voter = .error "Max voters reached" := by
  unfold _castVote; rw [if_neg (by simp [hv]), if_neg (by omega), if_pos hcap]

lemma voteBySig_errInvalidCand {O : EthOracle} {self : Nat} {s : SVState}
    {now ci voter nonce : Nat} {sig : List Nat}
    (hact : activeAt s now) (hci : s.candidates.length ≤ ci) :
    voteBySignature O self s now ci voter nonce sig = .error "Invalid candidate" := by
  unfold voteBySignature
  rw [(onlyDuring_ok_iff s now).mpr hact]
  dsimp only
  rw [if_pos hci]

lemma voteBySig_errAlready {O : EthOracle} {self : Nat} {s : SVState}
    {now ci voter nonce : Nat} {sig : List Nat}
    (hact : activeAt s now) (hci : ci < s.candidates.length)
    (hv : hasVotedF s voter = true) :
    voteBySignature O self s now ci voter nonce sig = .error "Voter already voted" := by
  unfold voteBySignature
  rw [(onlyDuring_ok_iff s now).mpr hact]
  dsimp only
  rw [if_neg (by omega), if_pos hv]

lemma voteByName_errNotFound {s : SVState} {sender now : Nat} {n : String}
    (hact : activeAt s now) (hf : (getCandidateIndexByName s n).2 = false) :
    voteByName s sender now n = .error "Candidate not found" := by
  unfold voteByName
  rw [(onlyDuring_ok_iff s now).mpr hact]
  dsimp only
  rw [if_pos hf]

/-!
## Claim theorems
-/

/-- Claim C1 (corrected).  The direct path (vote, and voteByName once the
name resolves) checks election-active, already-voted, invalid-index,
capacity in exactly that order, so an already-voted sender with an
out-of-range index gets the already-voted error there.  But
voteBySignature checks the candidate index BEFORE the already-voted flag
(contract lines 122-123), so the same situation reports the
invalid-candidate error instead; and voteByName reports an unknown name
before the already-voted check. -/
theorem C1_check_order_amended (O : EthOracle) (self : Nat) (s : SVState)
    (sender now ci voter nonce : Nat) (sig : List Nat) (name : String) :
    (s.electionEnded = true → vote s sender now ci = .error "Election has ended") ∧
    (s.electionEnded = false → now < s.electionStartTime →
       vote s sender now ci = .error "Election not started") ∧
    (s.electionEnded = false → s.electionStartTime ≤ now → s.electionEndTime < now →
       vote s sender now ci = .error "Election time expired") ∧
    (activeAt s now → hasVotedF s sender = true →
       vote s sender now ci = .error "Already voted") ∧
    (activeAt s now → hasVotedF s sender = false → s.candidates.length ≤ ci →
       vote s sender now ci = .error "Candidate out of range") ∧
    (activeAt s now → hasVotedF s sender = false → ci < s.candidates.length →
       s.maxVoters ≤ s.voterCount →
       vote s sender now ci = .error "Max voters reached") ∧
    (activeAt s now → s.candidates.length ≤ ci →
       voteBySignature O self s now ci voter nonce sig = .error "Invalid candidate") ∧
    (activeAt s now → ci < s.candidates.length → hasVotedF s voter = true →
       voteBySignature O self s now ci voter nonce sig = .error "Voter already voted") ∧
    (activeAt s now → (getCandidateIndexByName s name).2 = false →
       voteByName s sender now name = .error "Candidate not found") := by
  refine ⟨?_, ?_, ?_, ?_, ?_, ?_, ?_, ?_, ?_⟩
  · intro h; exact vote_guard_err (onlyDuring_err1 h)
  · intro h1 h2; exact vote_guard_err (onlyDuring_err2 h1 h2)
  · intro h1 h2 h3; exact vote_guard_err (onlyDuring_err3 h1 h2 h3)
  · intro hact hv; rw [vote_guard_ok hact]; exact castVote_err1 hv
  · intro hact hv hci; rw [vote_guard_ok hact]; exact castVote_err2 hv hci
  · intro hact hv hci hcap; rw [vote_guard_ok hact]; exact castVote_err3 hv hci hcap
  · intro hact hci; exact voteBySig_errInvalidCand hact hci
  · intro hact hci hv; exact voteBySig_errAlready hact hci hv
  · intro hact hf; exact voteByName_errNotFound hact hf

/-- Claim C1, counterexample to the claim as stated: in the reachable state
sCap1, voter 7 has already voted; submitting candidate index 2 (out of
range, there are 2 candidates) through voteBySignature reports the
invalid-candidate error, not the already-voted error the claim demands for
every vote-submission path. -/
theorem C1_counterexample :
    hasVotedF sCap1 7 = true ∧
    sCap1.candidates.length ≤ 2 ∧
    vote sCap1 7 6 2 = .error "Already voted" ∧
    errMsg (voteBySignature O7 0 sCap1 6 2 7 0 sig65) = some "Invalid candidate" ∧
    some "Invalid candidate" ≠ some "Voter already voted" ∧
    some "Invalid candidate" ≠ some "Already voted" := by
  exact ⟨rfl, by decide, rfl, rfl, by decide, by decide⟩

/-- Claim C1, witness instantiating the amended theorem. -/
theorem C1_witness :
    vote sCap1 7 6 2 = .error "Already voted" ∧
    voteBySignature O7 0 sCap1 6 2 7 0 sig65 = .error "Invalid candidate" := by
  refine ⟨(C1_check_order_amended O7 0 sCap1 7 6 2 7 0 sig65 "A").2.2.2.1 (by decide) rfl, ?_⟩
  exact (C1_check_order_amended O7 0 sCap1 7 6 2 7 0 sig65 "A").2.2.2.2.2.2.1
    (by decide) (by decide)

/-- Claim C2 (corrected).  A replay of an already-accepted signed vote is
rejected, but with the already-voted error: the hasVoted check (line 123)
precedes the nonce check (line 127), so the replay never reaches the nonce
comparison.  (The nonce check would also fail, since the nonce was
consumed, but its error is not the one surfaced.) -/
theorem C2_replay_amended (O : EthOracle) (self : Nat) (s : SVState)
    (now ci voter nonce : Nat) (sig : List Nat) (s2 : SVState)
    (hok : voteBySignature O self s now ci voter nonce sig = .ok s2)
    (now2 : Nat) (hact : activeAt s2 now2) :
    voteBySignature O self s2 now2 ci voter nonce sig = .error "Voter already voted" := by
  obtain ⟨-, hci, -, -, -, -, hcv⟩ := voteBySig_ok hok
  obtain ⟨-, -, -, hs2⟩ := castVote_ok hcv
  subst hs2
  refine voteBySig_errAlready hact ?_ ?_
  · show ci < (modifyIdx s.candidates ci incVote).length
    rw [modifyIdx_length]
    exact hci
  · show memB (voter :: _) voter = true
    simp [memB]

/-- Claim C2, counterexample to the claim as stated: the replayed,
still-cryptographically-valid authorization of voter 7 is rejected with
"Voter already voted", not with the nonce-mismatch error "Invalid nonce". -/
theorem C2_counterexample :
    sigValidB O7 0 0 7 0 sig65 = true ∧
    errMsg (voteBySignature O7 0 s0 5 0 7 0 sig65) = none ∧
    errMsg (voteBySignature O7 0 s2sig 6 0 7 0 sig65) = some "Voter already voted" ∧
    some "Voter already voted" ≠ some "Invalid nonce" := by
  exact ⟨rfl, rfl, rfl, by decide⟩

/-- Claim C2, witness instantiating the amended theorem on the concrete
replay scenario. -/
theorem C2_witness :
    voteBySignature O7 0 s2sig 6 0 7 0 sig65 = .error "Voter already voted" :=
  C2_replay_amended O7 0 s0 5 0 7 0 sig65 s2sig rfl 6 (by decide)

/-- Claim C3 (corrected).  The appended VoteCast record DOES contain the
voter identity: every successful vote appends exactly
VoteCast voter candidateIndex timestamp to the event log (contract line 33
declares the voter as the first, indexed field), so records of two
distinct voters for the same candidate at the same time differ in the
voter field.  Only the identity-keyed hasVoted and nonce maps were
supposed to see the identity, but the event log sees it as well. -/
theorem C3_record_amended (s : SVState) (now ci voter : Nat) (s2 : SVState)
    (h : _castVote s now ci voter = .ok s2) :
    s2.events = s.events ++ [SVEvent.VoteCast voter ci now] := by
  obtain ⟨-, -, -, hs2⟩ := castVote_ok h
  subst hs2
  rfl

/-- Claim C3, counterexample to the claim as stated: voters 7 and 8 vote
for candidate 0 at the same time 5 from the same fresh state, and the
resulting event logs differ (the stored records are not identical). -/
theorem C3_counterexample :
    eventsOf (vote s0 7 5 0) ≠ eventsOf (vote s0 8 5 0) := by decide

/-- Claim C3, witness instantiating the amended theorem. -/
theorem C3_witness :
    (applyTx O7 s0 (Tx.vote 7 5 0)).events = s0.events ++ [SVEvent.VoteCast 7 0 5] :=
  C3_record_amended s0 5 0 7 _ rfl

/-- Claim C4 (confirmed).  If the signature itself does not verify (bad
length, invalid v, zero recovered address, or recovered signer different
from the claimed voter), the whole call reverts and nonces[voter] is
unchanged.  Whenever signature verification succeeds — which can only
happen after the eligibility checks already passed — the call succeeds and
nonces[voter] is incremented by exactly 1; in this contract no execution
exists in which the signature verifies and a later eligibility check then
fails, so the increment-on-success guarantee is unconditional. -/
theorem C4_nonce_discipline (O : EthOracle) (self : Nat) (s : SVState)
    (now ci voter nonce : Nat) (sig : List Nat) :
    (sigValidB O self ci voter nonce sig = false →
       ngetN (applyTx O s (Tx.voteBySig self now ci voter nonce sig)).nonces voter =
         ngetN s.nonces voter) ∧
    (activeAt s now → ci < s.candidates.length → hasVotedF s voter = false →
     s.voterCount < s.maxVoters → ngetN s.nonces voter = nonce →
     sigValidB O self ci voter nonce sig = true →
     ∃ s2, voteBySignature O self s now ci voter nonce sig = .ok s2 ∧
       ngetN s2.nonces voter = ngetN s.nonces voter + 1) := by
  constructor
  · intro hsv
    cases hex : execTx O s (Tx.voteBySig self now ci voter nonce sig) with
    | error e =>
      have happ : applyTx O s (Tx.voteBySig self now ci voter nonce sig) = s := by
        unfold applyTx; rw [hex]
      rw [happ]
    | ok s2 =>
      exfalso
      obtain ⟨-, -, -, -, -, hsv2, -⟩ := voteBySig_ok hex
      rw [hsv] at hsv2
      cases hsv2
  · intro hact hci hv hcm hn hsv
    have hrec : _recover O (O.keccakDigest self voter ci nonce) sig = .ok voter := by
      unfold sigValidB at hsv
      cases hr : _recover O (O.keccakDigest self voter ci nonce) sig with
      | error e => rw [hr] at hsv; cases hsv
      | ok a =>
        rw [hr] at hsv
        simp only [beq_iff_eq] at hsv
        rw [hsv]
    have hfin : voteBySignature O self s now ci voter nonce sig =
        .ok { s with nonces := nset s.nonces voter (ngetN s.nonces voter + 1),
                     votedSet := voter :: s.votedSet,
                     voterCount := s.voterCount + 1,
                     candidates := modifyIdx s.candidates ci incVote,
                     events := s.events ++ [SVEvent.VoteCast voter ci now] } := by
      unfold voteBySignature
      rw [(onlyDuring_ok_iff s now).mpr hact]
      dsimp only
      rw [if_neg (by omega), if_neg (by simp [hv]), if_neg (by omega),
          if_neg (by simp [hn]), hrec]
      dsimp only
      rw [if_neg (by simp)]
      exact castVote_eq_ok hv hci hcm
    refine ⟨_, hfin, ?_⟩
    show ngetN (nset s.nonces voter (ngetN s.nonces voter + 1)) voter =
      ngetN s.nonces voter + 1
    simp [nset, ngetN]

/-- Claim C4, witness: an invalid (empty) signature leaves voter 7's nonce
unchanged, and the valid 65-byte signature under oracle O7 makes the call
succeed with the nonce incremented from 0 to 1. -/
theorem C4_witness :
    (ngetN (applyTx O7 s0 (Tx.voteBySig 0 5 0 7 0 [])).nonces 7 = ngetN s0.nonces 7) ∧
    (∃ s2, voteBySignature O7 0 s0 5 0 7 0 sig65 = .ok s2 ∧
       ngetN s2.nonces 7 = ngetN s0.nonces 7 + 1) := by
  refine ⟨(C4_nonce_discipline O7 0 s0 5 0 7 0 []).1 (by decide), ?_⟩
  exact (C4_nonce_discipline O7 0 s0 5 0 7 0 sig65).2 (by decide) (by decide) rfl
    (by decide) rfl (by decide)

/-- Claim C5 (confirmed).  Once the election has ended (flag set or time
past endTime) and at least one candidate exists, getWinner returns the
maximum vote count over all candidates, the name of the first candidate in
registration order achieving that maximum, and tie exactly when more than
one candidate holds the (necessarily positive) maximum; a zero maximum
instead produces the fixed answer (name "", votes 0, tie false). -/
theorem C5_getWinner (s : SVState) (now : Nat)
    (hend : s.electionEnded = true ∨ s.electionEndTime < now)
    (hne : s.candidates ≠ []) :
    (maxVotesOf s.candidates = 0 → getWinner s now = .ok ("", 0, false)) ∧
    (0 < maxVotesOf s.candidates →
       getWinner s now = .ok
         ((nthD s.candidates (fIdx s.candidates (maxVotesOf s.candidates)) ⟨"", 0⟩).name,
          maxVotesOf s.candidates,
          decide (1 < countMax s.candidates (maxVotesOf s.candidates)))) := by
  have hlen : ¬ (s.candidates.length = 0) := by
    simpa [List.length_eq_zero] using hne
  have hloop := winnerLoop_spec s.candidates 0 0 0 0
  constructor
  · intro h0
    unfold getWinner
    rw [if_pos hend, if_neg hlen, hloop,
        if_neg (show ¬ (0 < maxVotesOf s.candidates) by omega)]
    simp
  · intro hpos
    unfold getWinner
    rw [if_pos hend, if_neg hlen, hloop, if_pos hpos]
    have hM0 : ¬ (maxVotesOf s.candidates = 0) := by omega
    simp [hM0]

/-- A finished election with candidates A, B, C holding 2, 2, 1 votes. -/
def sTie : SVState where
  owner := 1
  candidates := [⟨"A", 2⟩, ⟨"B", 2⟩, ⟨"C", 1⟩]
  votedSet := [3, 4, 5, 6, 7]
  nonces := []
  voterCount := 5
  maxVoters := 10
  electionStartTime := 0
  electionEndTime := 3600
  electionEnded := true
  events := []

/-- Claim C5, witness: on the tie state sTie the theorem yields the
first-registered maximum holder A with 2 votes and tie = true. -/
theorem C5_witness : getWinner sTie 0 = .ok ("A", 2, true) := by
  have h := (C5_getWinner sTie 0 (Or.inl rfl) (by decide)).2 (by decide)
  rw [h]
  rfl

lemma dupName_iff (acc : List Candidate) (n : String) :
    dupName acc n = true ↔ n ∈ acc.map Candidate.name := by
  unfold dupName
  simp [List.any_eq_true, List.mem_map]

lemma addAll_spec : ∀ (ns : List String) (acc : List Candidate),
    (acc.map Candidate.name).Nodup →
    (((acc.map Candidate.name) ++ ns).Nodup →
       addAll acc ns = .ok (acc ++ ns.map (fun n => Candidate.mk n 0))) ∧
    (¬ ((acc.map Candidate.name) ++ ns).Nodup →
       addAll acc ns = .error "Duplicate candidate name") := by
  intro ns
  induction ns with
  | nil =>
    intro acc hacc
    constructor
    · intro h
      unfold addAll
      simp
    · intro h
      exact absurd (by simpa using hacc) h
  | cons n rest ih =>
    intro acc hacc
    have hmapl : (acc ++ [(⟨n, 0⟩ : Candidate)]).map Candidate.name =
        acc.map Candidate.name ++ [n] := by simp
    constructor
    · intro h
      have h2 : ((acc.map Candidate.name ++ [n]) ++ rest).Nodup := by
        rwa [List.append_assoc, List.singleton_append]
      have hnm : n ∉ acc.map Candidate.name := by
        rw [List.nodup_append] at h
        intro hmem
        exact h.2.2 hmem (List.mem_cons_self n rest)
      have hd : dupName acc n = false := by
        cases hdb : dupName acc n
        · rfl
        · exact absurd ((dupName_iff acc n).1 hdb) hnm
      have hacc2 : ((acc ++ [(⟨n, 0⟩ : Candidate)]).map Candidate.name).Nodup := by
        rw [hmapl]
        exact (List.sublist_append_left _ rest).nodup h2
      unfold addAll
      rw [if_neg (by simp [hd])]
      have hforward := (ih (acc ++ [⟨n, 0⟩]) hacc2).1 (by rw [hmapl]; exact h2)
      rw [hforward, List.append_assoc]
      rfl
    · intro h
      by_cases hdb : dupName acc n = true
      · unfold addAll
        rw [if_pos hdb]
      · have hd : dupName acc n = false := by
          cases hdb2 : dupName acc n
          · rfl
          · exact absurd hdb2 hdb
        have hnm : n ∉ acc.map Candidate.name := fun hmem =>
          hdb ((dupName_iff acc n).2 hmem)
        have hacc2 : ((acc ++ [(⟨n, 0⟩ : Candidate)]).map Candidate.name).Nodup := by
          rw [hmapl, List.nodup_append]
          refine ⟨hacc, List.nodup_singleton n, ?_⟩
          intro a ha hb
          rw [List.mem_singleton] at hb
          subst hb
          exact hnm ha
        unfold addAll
        rw [if_neg (by simp [hd])]
        refine (ih (acc ++ [⟨n, 0⟩]) hacc2).2 ?_
        rw [hmapl]
        intro hcontra
        apply h
        rwa [List.append_assoc, List.singleton_append] at hcontra

/-- Claim C9 (corrected).  Deployment fails with the too-few-candidates
error for fewer than 2 names, then with the invalid-max-voters error when
maxVoters = 0, then — a case the claim omits — with the invalid-duration
error when durationHours = 0, then with the duplicate-name error on any
case-sensitive pairwise duplicate; only otherwise does it succeed, and
then every candidate starts with voteCount 0. -/
theorem C9_constructor_amended (sender now : Nat) (names : List String) (mv dh : Nat) :
    (names.length < 2 →
       constructor sender now names mv dh = .error "At least two candidates") ∧
    (2 ≤ names.length → mv = 0 →
       constructor sender now names mv dh = .error "maxVoters > 0") ∧
    (2 ≤ names.length → 0 < mv → dh = 0 →
       constructor sender now names mv dh = .error "duration > 0") ∧
    (2 ≤ names.length → 0 < mv → 0 < dh → ¬ names.Nodup →
       constructor sender now names mv dh = .error "Duplicate candidate name") ∧
    (2 ≤ names.length → 0 < mv → 0 < dh → names.Nodup →
       constructor sender now names mv dh = .ok
         { owner := sender, candidates := names.map (fun n => Candidate.mk n 0),
           votedSet := [], nonces := [], voterCount := 0, maxVoters := mv,
           electionStartTime := now, electionEndTime := now + dh * 3600,
           electionEnded := false,
           events := (names.map SVEvent.CandidateAdded) ++
                     [SVEvent.ElectionStarted now (now + dh * 3600)] } ∧
       ∀ c ∈ names.map (fun n => Candidate.mk n 0), c.voteCount = 0) := by
  refine ⟨?_, ?_, ?_, ?_, ?_⟩
  · intro h
    unfold constructor
    rw [if_pos h]
  · intro h1 h2
    unfold constructor
    rw [if_neg (by omega), if_pos h2]
  · intro h1 h2 h3
    unfold constructor
    rw [if_neg (by omega), if_neg (by omega), if_pos h3]
  · intro h1 h2 h3 h4
    unfold constructor
    rw [if_neg (by omega), if_neg (by omega), if_neg (by omega)]
    have herr := (addAll_spec names [] (by simp)).2 (by simpa using h4)
    rw [herr]
  · intro h1 h2 h3 h4
    refine ⟨?_, ?_⟩
    · unfold constructor
      rw [if_neg (by omega), if_neg (by omega), if_neg (by omega)]
      have hok := (addAll_spec names [] (by simp)).1 (by simpa using h4)
      rw [hok]
      rfl
    · intro c hc
      rw [List.mem_map] at hc
      obtain ⟨n, -, hcn⟩ := hc
      rw [← hcn]

/-- Claim C9, counterexample to the claim as stated: with two distinct
candidate names and a positive maxVoters the claim says deployment
succeeds, but a zero duration makes the constructor revert with
"duration > 0". -/
theorem C9_counterexample :
    (["A", "B"] : List String).length = 2 ∧
    (["A", "B"] : List String).Nodup ∧
    constructor 1 0 ["A", "B"] 1 0 = .error "duration > 0" := by
  exact ⟨rfl, by decide, rfl⟩

/-- Claim C9, witness instantiating the amended theorem: the deployment
that produced s0, with every candidate at zero votes. -/
theorem C9_witness :
    constructor 1 0 ["A", "B"] 5 1 = .ok s0 ∧
    ∀ c ∈ (["A", "B"] : List String).map (fun n => Candidate.mk n 0), c.voteCount = 0 := by
  have h := (C9_constructor_amended 1 0 ["A", "B"] 5 1).2.2.2.2
    (by decide) (by decide) (by decide) (by decide)
  exact ⟨h.1, h.2⟩

lemma reach_s0 : Reach O7 s0 0 := Reach.init 1 0 ["A", "B"] 5 1 s0 rfl

lemma reach_sCap0 : Reach O7 sCap0 0 := Reach.init 1 0 ["A", "B"] 1 1 sCap0 rfl

lemma reach_sCap1 : Reach O7 sCap1 5 :=
  Reach.step sCap0 0 (Tx.vote 7 5 0) reach_sCap0 (by omega)

/-- Claim C6 (corrected).  In every reachable state the conservation
invariant holds: the sum of candidate voteCounts equals voterCount, which
equals the number of VoteCast records ever emitted, and voterCount never
exceeds maxVoters.  Once voterCount = maxVoters, every vote transaction
fails and leaves the state unchanged — but the surfaced error is the
capacity error only when the checks ahead of it pass (election active,
sender fresh, index in range); an already-voted sender gets the
already-voted error and an out-of-range index the out-of-range error. -/
theorem C6_invariant_amended (O : EthOracle) (s : SVState) (t : Nat)
    (h : Reach O s t) :
    (sumVotes s.candidates = s.voterCount ∧
     s.voterCount = countVoteCast s.events ∧
     s.voterCount ≤ s.maxVoters) ∧
    (s.voterCount = s.maxVoters →
       ∀ tx, isVoteTx tx = true →
         (∃ msg, execTx O s tx = .error msg) ∧ applyTx O s tx = s) ∧
    (∀ sender now ci, s.voterCount = s.maxVoters → activeAt s now →
       hasVotedF s sender = false → ci < s.candidates.length →
       vote s sender now ci = .error "Max voters reached") := by
  obtain ⟨-, -, hi3, hi4, hi5⟩ := reach_inv h
  refine ⟨⟨hi3, hi4, hi5⟩, ?_, ?_⟩
  · intro hcap tx hvt
    have herr : ∀ s2, ¬ (execTx O s tx = .ok s2) := by
      intro s2 hok
      cases tx with
      | vote sender now ci =>
        obtain ⟨-, hcv⟩ := vote_ok hok
        obtain ⟨-, -, hcm, -⟩ := castVote_ok hcv
        omega
      | voteByName sender now n =>
        obtain ⟨-, hcv⟩ := voteByName_ok hok
        obtain ⟨-, -, hcm, -⟩ := castVote_ok hcv
        omega
      | voteBySig self now ci voter nonce sig =>
        obtain ⟨-, -, -, hcm, -, -, -⟩ := voteBySig_ok hok
        omega
      | endElection sender now => simp [isVoteTx] at hvt
      | addCandidate sender now n => simp [isVoteTx] at hvt
    cases hex : execTx O s tx with
    | ok s2 => exact absurd hex (herr s2)
    | error e =>
      refine ⟨⟨e, rfl⟩, ?_⟩
      unfold applyTx
      rw [hex]
  · intro sender now ci hcap hact hv hci
    rw [vote_guard_ok hact]
    exact castVote_err3 hv hci (by omega)

/-- Claim C6, counterexample to the claim as stated: in the reachable
state sCap1 (capacity 1 reached), the already-voted voter 7 and the fresh
voter 8 with an out-of-range index both fail, but with the already-voted
and out-of-range errors, not the capacity error the claim demands for
every vote attempt. -/
theorem C6_counterexample :
    sCap1.voterCount = sCap1.maxVoters ∧
    errMsg (vote sCap1 7 6 1) = some "Already voted" ∧
    errMsg (vote sCap1 8 6 5) = some "Candidate out of range" ∧
    some "Already voted" ≠ some "Max voters reached" ∧
    some "Candidate out of range" ≠ some "Max voters reached" := by
  exact ⟨rfl, rfl, rfl, by decide, by decide⟩

/-- Claim C6, witness instantiating the amended theorem at the reachable
at-capacity state sCap1. -/
theorem C6_witness :
    (sumVotes sCap1.candidates = sCap1.voterCount ∧
     sCap1.voterCount = countVoteCast sCap1.events ∧
     sCap1.voterCount ≤ sCap1.maxVoters) ∧
    ((∃ msg, execTx O7 sCap1 (Tx.vote 8 6 1) = .error msg) ∧
     applyTx O7 sCap1 (Tx.vote 8 6 1) = sCap1) ∧
    vote sCap1 8 6 1 = .error "Max voters reached" := by
  have h := C6_invariant_amended O7 sCap1 5 reach_sCap1
  exact ⟨h.1, h.2.1 rfl (Tx.vote 8 6 1) rfl, h.2.2 8 6 1 rfl (by decide) rfl (by decide)⟩

/-- Claim C7 (confirmed).  endElection called by a non-admin fails with
the not-admin error regardless of time or end state; called by the admin
before endTime it fails with the still-running error (in a reachable
state the end flag cannot yet be set, because setting it requires a
timestamp at or past endTime); called by the admin at or after endTime
with the flag unset it succeeds, the flag becomes true, stays true under
every further transaction, and every later admin call fails with the
already-ended error. -/
theorem C7_endElection (O : EthOracle) (s : SVState) (t : Nat) (h : Reach O s t)
    (sender now : Nat) (hmono : t ≤ now) :
    (sender ≠ s.owner → endElection s sender now = .error "Only owner") ∧
    (sender = s.owner → s.electionEnded = true →
       endElection s sender now = .error "Already ended") ∧
    (sender = s.owner → now < s.electionEndTime →
       endElection s sender now = .error "Election still running") ∧
    (sender = s.owner → s.electionEnded = false → s.electionEndTime ≤ now →
       ∃ s2, endElection s sender now = .ok s2 ∧ s2.electionEnded = true ∧
         (∀ now2, endElection s2 s.owner now2 = .error "Already ended") ∧
         (∀ txs, (run O s2 txs).electionEnded = true)) := by
  obtain ⟨-, hi2, -, -, -⟩ := reach_inv h
  refine ⟨?_, ?_, ?_, ?_⟩
  · intro hs
    unfold endElection
    rw [if_pos hs]
  · intro hs he
    unfold endElection
    rw [if_neg (by simp [hs]), if_pos he]
  · intro hs hlt
    have hef : s.electionEnded = false := by
      cases hb : s.electionEnded
      · rfl
      · exact absurd (hi2 hb) (by omega)
    unfold endElection
    rw [if_neg (by simp [hs]), if_neg (by simp [hef]), if_pos hlt]
  · intro hs hef hge
    have hok : endElection s sender now =
        .ok { s with electionEnded := true,
                     events := s.events ++ [SVEvent.ElectionEnded now sender] } := by
      unfold endElection
      rw [if_neg (by simp [hs]), if_neg (by simp [hef]), if_neg (by omega)]
    refine ⟨_, hok, rfl, ?_, ?_⟩
    · intro now2
      unfold endElection
      rw [if_neg (by simp), if_pos (by rfl)]
    · intro txs
      exact run_ended_mono O _ txs rfl

/-- Claim C7, witness: on the reachable fresh state s0 (owner 1, endTime
3600), a non-admin call, an early admin call, and the successful admin
call at endTime, with the one-way flag and the already-ended error for
every later admin call. -/
theorem C7_witness :
    endElection s0 2 10 = .error "Only owner" ∧
    endElection s0 1 10 = .error "Election still running" ∧
    (∃ s2, endElection s0 1 3600 = .ok s2 ∧ s2.electionEnded = true ∧
       (∀ now2, endElection s2 s0.owner now2 = .error "Already ended") ∧
       (∀ txs, (run O7 s2 txs).electionEnded = true)) := by
  refine ⟨(C7_endElection O7 s0 0 reach_s0 2 10 (by omega)).1 (by decide),
          (C7_endElection O7 s0 0 reach_s0 1 10 (by omega)).2.2.1 rfl (by decide),
          (C7_endElection O7 s0 0 reach_s0 1 3600 (by omega)).2.2.2 rfl rfl (by decide)⟩

/-- Claim C10 (confirmed).  The constructor stamps electionStartTime with
the deployment timestamp, so addCandidate's precondition (now strictly
before electionStartTime) is unsatisfiable from any reachable state at or
after the last observed time: every addCandidate call fails (with the
not-owner error or the before-start error), and every transaction leaves
the candidate name sequence and its length unchanged — only vote counts
ever change. -/
theorem C10_candidates_fixed (O : EthOracle) (s : SVState) (t : Nat)
    (h : Reach O s t) :
    (∀ sender now names mv dh s0c, constructor sender now names mv dh = .ok s0c →
       s0c.electionStartTime = now) ∧
    (∀ sender now name, t ≤ now →
       ∃ msg, addCandidate s sender now name = .error msg) ∧
    (∀ tx, t ≤ txTime tx →
       (applyTx O s tx).candidates.map Candidate.name =
         s.candidates.map Candidate.name ∧
       (applyTx O s tx).candidates.length = s.candidates.length) := by
  obtain ⟨hi1, -, -, -, -⟩ := reach_inv h
  have hpres : ∀ tx2, (isVoteTx tx2 = true ∨ (∃ a b, tx2 = Tx.endElection a b)) →
      (applyTx O s tx2).candidates.map Candidate.name =
        s.candidates.map Candidate.name ∧
      (applyTx O s tx2).candidates.length = s.candidates.length := by
    intro tx2 hvt
    have hn := applyTx_names_of_vote O s tx2 hvt
    refine ⟨hn, ?_⟩
    calc (applyTx O s tx2).candidates.length
        = ((applyTx O s tx2).candidates.map Candidate.name).length :=
          (List.length_map _ _).symm
      _ = (s.candidates.map Candidate.name).length := by rw [hn]
      _ = s.candidates.length := List.length_map _ _
  refine ⟨?_, ?_, ?_⟩
  · intro sender now names mv dh s0c hc
    obtain ⟨-, -, -, hs⟩ := constructor_ok hc
    rw [hs]
  · intro sender now name hle
    by_cases hs : sender ≠ s.owner
    · refine ⟨"Only owner", ?_⟩
      unfold addCandidate
      rw [if_pos hs]
    · refine ⟨"Can only add candidates before start", ?_⟩
      unfold addCandidate
      rw [if_neg hs, if_pos (by omega)]
  · intro tx htx
    cases tx with
    | vote a b c => exact hpres _ (Or.inl rfl)
    | voteByName a b c => exact hpres _ (Or.inl rfl)
    | voteBySig a b c d e f => exact hpres _ (Or.inl rfl)
    | endElection a b => exact hpres _ (Or.inr ⟨a, b, rfl⟩)
    | addCandidate sender now name =>
      cases hex : execTx O s (Tx.addCandidate sender now name) with
      | error e =>
        have happ : applyTx O s (Tx.addCandidate sender now name) = s := by
          unfold applyTx
          rw [hex]
        rw [happ]
        exact ⟨rfl, rfl⟩
      | ok s2 =>
        exfalso
        obtain ⟨-, hlt, -⟩ := addCandidate_ok hex
        have hle : t ≤ now := htx
        omega

/-- Claim C10, witness: s0 was deployed at time 0 with start time 0, an
addCandidate call at time 5 fails, and a vote transaction preserves the
candidate names. -/
theorem C10_witness :
    s0.electionStartTime = 0 ∧
    (∃ msg, addCandidate s0 1 5 "C" = .error msg) ∧
    ((applyTx O7 s0 (Tx.vote 7 5 0)).candidates.map Candidate.name =
       s0.candidates.map Candidate.name ∧
     (applyTx O7 s0 (Tx.vote 7 5 0)).candidates.length = s0.candidates.length) := by
  have h := C10_candidates_fixed O7 s0 0 reach_s0
  exact ⟨h.1 1 0 ["A", "B"] 5 1 s0 rfl, h.2.1 1 5 "C" (by omega),
         h.2.2 (Tx.vote 7 5 0) (by omega)⟩

/-- Claim C8 (corrected).  isChainValid returns true for every chain built
solely by successful vote appends, and returns false whenever the stored
hash of any block from index 1 onward is changed to a different value.
But a mutation of vote content is detected only when it changes the
recomputed 32-bit rolling hash: the hash has collisions (the counterexample
rewrites a candidate name from "Aa" to "BB", which hashes identically), so
the claim's "false whenever any vote content is mutated" fails. -/
theorem C8_chain_integrity_amended :
    (∀ (ts : Nat) (vs : List JVote), isChainValid (buildChain ts vs) = true) ∧
    (∀ (ts : Nat) (vs : List JVote) (i : Nat) (hNew : String),
       1 ≤ i → i < (buildChain ts vs).length →
       hNew ≠ (nthD (buildChain ts vs) i defaultJBlock).hash →
       isChainValid (setBlockHash (buildChain ts vs) i hNew) = false) := by
  constructor
  · intro ts vs
    exact goodChain_valid _ (buildChain_good ts vs)
  · intro ts vs i hNew hi1 hi2 hneq
    cases hv : isChainValid (setBlockHash (buildChain ts vs) i hNew) with
    | false => rfl
    | true =>
      exfalso
      have hlen : (setBlockHash (buildChain ts vs) i hNew).length =
          (buildChain ts vs).length := by
        unfold setBlockHash
        exact modifyIdx_length _ _ i
      have hval := isChainValid_nth _ hv i hi1 (by omega)
      have hset : nthD (setBlockHash (buildChain ts vs) i hNew) i defaultJBlock =
          { nthD (buildChain ts vs) i defaultJBlock with hash := hNew } := by
        unfold setBlockHash
        exact nthD_modifyIdx _ _ _ i (by omega)
      rw [hset, calculateHash_hash_irrel] at hval
      have hval2 : hNew = calculateHash (nthD (buildChain ts vs) i defaultJBlock) := hval
      have horig : (nthD (buildChain ts vs) i defaultJBlock).hash =
          calculateHash (nthD (buildChain ts vs) i defaultJBlock) :=
        goodChain_all _ (buildChain_good ts vs) _ (nthD_mem _ _ i (by omega))
      exact hneq (by rw [hval2, horig])

/-- Claim C8, counterexample to the claim as stated: the chain built by
one successful vote append with candidate "Aa" is mutated out-of-band
(candidate rewritten to "BB", a different vote content), yet isChainValid
still returns true, because the 31-based rolling hash of "Aa" and "BB"
collide. -/
theorem C8_counterexample :
    tamperCandidate (buildChain 0 [vAa]) 1 "BB" ≠ buildChain 0 [vAa] ∧
    (nthD (tamperCandidate (buildChain 0 [vAa]) 1 "BB") 1 defaultJBlock).votes ≠
      (nthD (buildChain 0 [vAa]) 1 defaultJBlock).votes ∧
    isChainValid (tamperCandidate (buildChain 0 [vAa]) 1 "BB") = true := by
  exact ⟨by decide, by decide, by decide⟩

/-- Claim C8, witness instantiating the amended theorem on a one-vote
chain: the built chain validates, and replacing block 1's stored hash
with "f" invalidates it. -/
theorem C8_witness :
    isChainValid (buildChain 0 [vAa]) = true ∧
    isChainValid (setBlockHash (buildChain 0 [vAa]) 1 "f") = false :=
  ⟨C8_chain_integrity_amended.1 0 [vAa],
   C8_chain_integrity_amended.2 0 [vAa] 1 "f" (by decide) (by decide) (by decide)⟩
